import Mathlib

/-!
Verification of the network-session core of src/video_conference.py.

Bytes are modelled as natural numbers. The external Python libraries used by
the source are modelled as follows:
- pickle.dumps / pickle.loads: an injective self-describing tagged encoding
  serializeMsg / deserializeMsg with loads (dumps m) = m, matching the
  roundtrip guarantee of pickle on the message dictionaries of the source;
- struct.pack with format !I: pack32, which fails (raises struct.error,
  modelled as none) when the value does not fit in 32 bits, and otherwise
  writes exactly 4 big-endian bytes; struct.unpack is unpack32;
- socket.recv n on a byte stream modelled as a pure list: returns up to n
  bytes from the front of the list, and the empty list once the stream is
  exhausted (a zero-byte read, i.e. the peer closed the connection);
- hashlib.md5: an arbitrary digest function passed as a parameter, since the
  claims depend only on equality or inequality of digests.
-/

namespace VideoConf

/-- Model of struct.pack with format !I (4-byte big-endian unsigned int):
raises struct.error (none) when the value is at least 2^32. -/
def pack32 (n : Nat) : Option (List Nat) :=
  if n < 2 ^ 32 then
    some [n / 2 ^ 24 % 256, n / 2 ^ 16 % 256, n / 2 ^ 8 % 256, n % 256]
  else none

/-- Model of struct.unpack with format !I on a 4-byte buffer. -/
def unpack32 (bs : List Nat) : Nat :=
  match bs with
  | [a, b, c, d] => ((a * 256 + b) * 256 + c) * 256 + d
  | _ => 0

/-- The five message kinds sent through the framer by the source
(send_to_client / broadcast_data / send_data build exactly these dict shapes;
the transfer id, a uuid string in the source, is abstracted to a Nat, and the
md5 hex digest string likewise). -/
inductive Message where
  | system (content timestamp : List Nat)
  | chat (content timestamp sender : List Nat)
  | file_info (transfer_id : Nat) (name : List Nat) (size : Nat) (md5 : Nat)
  | file_data (transfer_id : Nat) (chunk : List Nat)
  | file_end (transfer_id : Nat) (md5 : Nat)
deriving DecidableEq

/-- Unary encoding of a natural number (length marker): n ones then a zero. -/
def encNat (n : Nat) : List Nat :=
  List.replicate n 1 ++ [0]

/-- Length-prefixed encoding of a byte string. -/
def encBytes (xs : List Nat) : List Nat :=
  encNat xs.length ++ xs

/-- Decoder for encNat; fails on malformed input. -/
def decNat : List Nat → Option (Nat × List Nat)
  | [] => none
  | b :: rest =>
    if b = 0 then some (0, rest)
    else if b = 1 then
      match decNat rest with
      | some (n, r) => some (n + 1, r)
      | none => none
    else none

/-- Decoder for encBytes; fails if fewer bytes remain than announced. -/
def decBytes (s : List Nat) : Option (List Nat × List Nat) :=
  match decNat s with
  | none => none
  | some (n, r) => if n ≤ r.length then some (r.take n, r.drop n) else none

/-- Model of pickle.dumps on the five message dictionaries: a tag byte
followed by the self-describing fields. -/
def serializeMsg : Message → List Nat
  | .system c t => 0 :: (encBytes c ++ encBytes t)
  | .chat c t s => 1 :: (encBytes c ++ (encBytes t ++ encBytes s))
  | .file_info tid name size md5 =>
      2 :: (encNat tid ++ (encBytes name ++ (encNat size ++ encNat md5)))
  | .file_data tid chunk => 3 :: (encNat tid ++ encBytes chunk)
  | .file_end tid md5 => 4 :: (encNat tid ++ encNat md5)

/-- Model of pickle.loads on a payload buffer: recovers the message, or fails
(raises, modelled as none) on malformed input; like pickle.loads it ignores
any bytes after the encoded object. -/
def deserializeMsg (s : List Nat) : Option Message :=
  match s with
  | 0 :: r =>
    match decBytes r with
    | some (c, r1) =>
      match decBytes r1 with
      | some (t, _) => some (.system c t)
      | none => none
    | none => none
  | 1 :: r =>
    match decBytes r with
    | some (c, r1) =>
      match decBytes r1 with
      | some (t, r2) =>
        match decBytes r2 with
        | some (sd, _) => some (.chat c t sd)
        | none => none
      | none => none
    | none => none
  | 2 :: r =>
    match decNat r with
    | some (tid, r1) =>
      match decBytes r1 with
      | some (name, r2) =>
        match decNat r2 with
        | some (size, r3) =>
          match decNat r3 with
          | some (md5, _) => some (.file_info tid name size md5)
          | none => none
        | none => none
      | none => none
    | none => none
  | 3 :: r =>
    match decNat r with
    | some (tid, r1) =>
      match decBytes r1 with
      | some (chunk, _) => some (.file_data tid chunk)
      | none => none
    | none => none
  | 4 :: r =>
    match decNat r with
    | some (tid, r1) =>
      match decNat r1 with
      | some (md5, _) => some (.file_end tid md5)
      | none => none
    | none => none
  | _ => none

/-- send_to_client (src/video_conference.py lines 677-689): serializes the
message, packs the payload length as a 4-byte big-endian prefix, and sends
prefix then payload; the wire content is the concatenation.  A struct.error
on an oversized length is modelled as none (the exception is re-raised). -/
def send_to_client (m : Message) : Option (List Nat) :=
  let payload := serializeMsg m
  match pack32 payload.length with
  | some pre => some (pre ++ payload)
  | none => none

/-- The payload-accumulation loop shared by receive_from_client,
handle_client and receive_data (while len(received_data) < data_size:
chunk = recv(min(data_size - len(received_data), 8192)); if not chunk: break;
received_data += chunk).  Returns the accumulated bytes and the rest of the
stream.  A zero-byte recv (take on an exhausted stream) breaks the loop. -/
def recvAccum (s acc : List Nat) (target : Nat) : List Nat × List Nat :=
  if _h : acc.length < target then
    if hc : s.take (min (target - acc.length) 8192) = [] then
      (acc, s.drop (min (target - acc.length) 8192))
    else
      recvAccum (s.drop (min (target - acc.length) 8192))
        (acc ++ s.take (min (target - acc.length) 8192)) target
  else (acc, s)
termination_by s.length
decreasing_by
  simp only [List.take_eq_nil_iff] at hc
  push_neg at hc
  have h1 : s ≠ [] := hc.2
  have h2 : min (target - acc.length) 8192 ≠ 0 := hc.1
  have h3 : 0 < s.length := List.length_pos.mpr h1
  simp only [List.length_drop]
  omega

/-- receive_from_client (src/video_conference.py lines 691-708) on a byte
stream: outcome of one receive.  connClosed models the None returns on
zero-byte reads; protoError models an exception propagating out of
struct.unpack (short prefix) or pickle.loads. -/
inductive RecvResult where
  | connClosed
  | protoError
  | ok (m : Message)
deriving DecidableEq

/-- receive_from_client (src/video_conference.py lines 691-708): reads the
4-byte prefix (returns None on a zero-byte read), accumulates exactly that
many payload bytes (returns None on a zero-byte read before completion,
which is equivalent to the accumulated length still being short), then
unpickles the payload. -/
def receive_from_client (s : List Nat) : RecvResult :=
  let sizeData := s.take 4
  if sizeData = [] then .connClosed
  else if sizeData.length ≠ 4 then .protoError
  else
    let target := unpack32 sizeData
    let acc := (recvAccum (s.drop 4) [] target).1
    if acc.length < target then .connClosed
    else
      match deserializeMsg acc with
      | some m => .ok m
      | none => .protoError

/-! ### Helper lemmas for the framer -/

theorem take_app (xs ys : List Nat) : (xs ++ ys).take xs.length = xs := by
  induction xs with
  | nil => simp
  | cons a l ih => simp [ih]

theorem drop_app (xs ys : List Nat) : (xs ++ ys).drop xs.length = ys := by
  induction xs with
  | nil => simp
  | cons a l ih => simp [ih]

theorem decNat_enc (n : Nat) (rest : List Nat) :
    decNat (encNat n ++ rest) = some (n, rest) := by
  induction n with
  | zero => simp [encNat, decNat]
  | succ k ih =>
    have : encNat (k + 1) ++ rest = 1 :: (encNat k ++ rest) := by
      simp [encNat, List.replicate_succ]
    rw [this, decNat]
    simp [ih]

theorem decBytes_enc (xs rest : List Nat) :
    decBytes (encBytes xs ++ rest) = some (xs, rest) := by
  have h1 : encBytes xs ++ rest = encNat xs.length ++ (xs ++ rest) := by
    simp [encBytes]
  rw [h1, decBytes, decNat_enc]
  have h2 : xs.length ≤ (xs ++ rest).length := by simp
  simp [h2, take_app, drop_app]

theorem decNat_enc_nil (n : Nat) : decNat (encNat n) = some (n, []) := by
  have := decNat_enc n []
  simpa using this

theorem decBytes_enc_nil (xs : List Nat) : decBytes (encBytes xs) = some (xs, []) := by
  have := decBytes_enc xs []
  simpa using this

/-- Pickle roundtrip: loads (dumps m) = m. -/
theorem deserialize_serialize (m : Message) :
    deserializeMsg (serializeMsg m) = some m := by
  cases m <;>
    simp [serializeMsg, deserializeMsg, decNat_enc, decBytes_enc,
      decNat_enc_nil, decBytes_enc_nil]

theorem unpack_pack (n : Nat) (h : n < 2 ^ 32) :
    pack32 n = some [n / 2 ^ 24 % 256, n / 2 ^ 16 % 256, n / 2 ^ 8 % 256, n % 256] ∧
    unpack32 [n / 2 ^ 24 % 256, n / 2 ^ 16 % 256, n / 2 ^ 8 % 256, n % 256] = n := by
  constructor
  · unfold pack32
    rw [if_pos h]
  · simp only [unpack32]
    omega

/-- The accumulation loop on a stream that holds at most the outstanding
byte count collects the entire stream (exactly filling the target when the
stream holds exactly the outstanding bytes, breaking on a zero-byte read
otherwise). -/
theorem recvAccum_le (k : Nat) :
    ∀ (s acc : List Nat) (target : Nat), s.length ≤ k →
      acc.length + s.length ≤ target →
      recvAccum s acc target = (acc ++ s, []) := by
  induction k with
  | zero =>
    intro s acc target hs hle
    have hnil : s = [] := List.length_eq_zero.mp (Nat.le_zero.mp hs)
    subst hnil
    rw [recvAccum]
    by_cases h : acc.length < target
    · simp [h]
    · simp [h]
  | succ k ih =>
    intro s acc target hs hle
    by_cases hsnil : s = []
    · subst hsnil
      rw [recvAccum]
      by_cases h : acc.length < target
      · simp [h]
      · simp [h]
    · have hlen : 1 ≤ s.length := List.length_pos.mpr hsnil
      have hlt : acc.length < target := by omega
      rw [recvAccum]
      rw [dif_pos hlt]
      have hmin1 : 1 ≤ min (target - acc.length) 8192 := by omega
      have htk : s.take (min (target - acc.length) 8192) ≠ [] := by
        simp only [ne_eq, List.take_eq_nil_iff]
        push_neg
        exact ⟨by omega, hsnil⟩
      rw [dif_neg htk]
      have hlen2 : (s.drop (min (target - acc.length) 8192)).length ≤ k := by
        simp only [List.length_drop]
        omega
      have hsum : (acc ++ s.take (min (target - acc.length) 8192)).length +
          (s.drop (min (target - acc.length) 8192)).length ≤ target := by
        simp only [List.length_append, List.length_take, List.length_drop]
        omega
      rw [ih _ _ _ hlen2 hsum]
      rw [List.append_assoc, List.take_append_drop]

/-- One iteration of the receive loop of receive_data (src/video_conference.py
lines 752-776); the framing code of handle_client (lines 599-627) is
identical.  closed models a break out of the loop (disconnect); errored
models an exception propagating to the enclosing handler (struct.unpack on a
short prefix); decode means the accumulated payload is handed to
pickle.loads. -/
inductive LoopStep where
  | closed
  | errored
  | decode (payload rest : List Nat)
deriving DecidableEq

/-- receive_data / handle_client framing (src/video_conference.py lines
752-776 and 599-627): read the 4-byte prefix (empty read means the peer
closed: break); accumulate payload bytes, breaking the inner loop on a
zero-byte read; then — only when nothing at all was accumulated — break,
otherwise hand the accumulated payload to pickle.loads even when it is
shorter than the advertised length. -/
def receive_data_step (s : List Nat) : LoopStep :=
  let sizeData := s.take 4
  if sizeData = [] then .closed
  else if sizeData.length ≠ 4 then .errored
  else
    let target := unpack32 sizeData
    let r := recvAccum (s.drop 4) [] target
    if r.1 = [] then .closed
    else .decode r.1 r.2

/-! ### Client registry and broadcast (host side) -/

/-- What one pass of the broadcast loop produced: the updated client list
(self.clients after removals), the successful deliveries (socket id paired
with the payload bytes, which are serialized once before the loop), and the
sockets that were removed and closed. -/
structure BroadcastResult where
  clients : List Nat
  delivered : List (Nat × List Nat)
  closed : List Nat
deriving DecidableEq

/-- The loop of broadcast_data (src/video_conference.py lines 718-734):
iterate over a snapshot of self.clients, skip the excluded socket, try to
send to each; on a send failure remove that client from the live list (if
still present) and close it, then continue with the rest.  fails c = true
models a socket whose send raises (for example a pre-closed socket). -/
def broadcastGo (fails : Nat → Bool) (exclude : Option Nat)
    (payload : List Nat) : List Nat → List Nat → BroadcastResult
  | [], cur => ⟨cur, [], []⟩
  | c :: rest, cur =>
    if exclude = some c then broadcastGo fails exclude payload rest cur
    else if fails c then
      let cur' := if c ∈ cur then cur.erase c else cur
      let r := broadcastGo fails exclude payload rest cur'
      ⟨r.clients, r.delivered, c :: r.closed⟩
    else
      let r := broadcastGo fails exclude payload rest cur
      ⟨r.clients, (c, payload) :: r.delivered, r.closed⟩

/-- Labels used by the UI calls of the source (对方 / 主持人 / 我). -/
inductive ChatLabel where
  | duifang
  | zhuchiren
  | wo
deriving DecidableEq

/-- A call into the GUI layer (the Event Sink). -/
inductive UiEvent where
  | addChat (who : ChatLabel) (content : List Nat)
deriving DecidableEq

/-- The byte string "client". -/
def clientStr : List Nat := [99, 108, 105, 101, 110, 116]

/-- The host-side UI call made at the end of broadcast_data
(src/video_conference.py lines 737-744): a chat message is shown once, with
label 对方 when the sender field is "client" and 我 otherwise. -/
def broadcastUi : Message → List UiEvent
  | .chat c _ s => [.addChat (if s = clientStr then .duifang else .wo) c]
  | _ => []

/-- broadcast_data (src/video_conference.py lines 710-750): serialize the
message once, pack the length prefix, fan out over a snapshot of
self.clients removing any client whose send fails, then show chat messages
on the host UI.  The outer try/except means the function never raises; a
struct.error from an oversized payload aborts before any send (modelled by
the none branch of pack32). -/
def broadcast_data (fails : Nat → Bool) (clients : List Nat) (data : Message)
    (exclude : Option Nat) : BroadcastResult × List UiEvent :=
  match pack32 (serializeMsg data).length with
  | none => (⟨clients, [], []⟩, [])
  | some _ =>
    let r := broadcastGo fails exclude (serializeMsg data) clients clients
    (r, broadcastUi data)

/-! ### Host per-connection handler dispatch -/

/-- The dispatch of handle_client on one decoded message
(src/video_conference.py lines 636-649): a chat message is displayed on the
host UI (对方 when the sender field is "client", 主持人 otherwise); every
other message type falls through with no action.  In particular no send to
any other connection is performed: the returned wire-send list is always
empty and the client list is returned unchanged. -/
def handle_client_dispatch (clients : List Nat) (data : Message) :
    List Nat × List (Nat × List Nat) × List UiEvent :=
  match data with
  | .chat c _ s =>
      (clients, [], [.addChat (if s = clientStr then .duifang else .zhuchiren) c])
  | _ => (clients, [], [])

/-! ### Accept loop (host side) -/

/-- The byte string "connection_confirmed". -/
def connectionConfirmed : List Nat :=
  [99, 111, 110, 110, 101, 99, 116, 105, 111, 110, 95,
   99, 111, 110, 102, 105, 114, 109, 101, 100]

/-- The handshake message built by accept_connections
(src/video_conference.py lines 547-551). -/
def welcome (ts : List Nat) : Message :=
  .system connectionConfirmed ts

/-- Outcome of processing one accepted connection. -/
structure AcceptOutcome where
  registry : List Nat
  sent : List (List Nat)
  registered : Bool
  spawned : Bool
  closedSock : Bool
deriving DecidableEq

/-- The body of accept_connections for one accepted socket
(src/video_conference.py lines 543-582): build the welcome message, send the
length prefix then the payload; on success append the socket to self.clients
and spawn a handler thread; on any exception close the socket without
registering it.  sendOk i tells whether the i-th send call on this socket
succeeds. -/
def accept_one (reg : List Nat) (sock : Nat) (sendOk : Nat → Bool)
    (ts : List Nat) : AcceptOutcome :=
  match pack32 (serializeMsg (welcome ts)).length with
  | none => ⟨reg, [], false, false, true⟩
  | some pre =>
    if sendOk 0 then
      if sendOk 1 then
        ⟨reg ++ [sock], [pre, serializeMsg (welcome ts)], true, true, false⟩
      else ⟨reg, [pre], false, false, true⟩
    else ⟨reg, [], false, false, true⟩

/-! ### Client connect with retry -/

/-- self.retry_count, set in _init_attributes (src/video_conference.py
line 43). -/
def retry_count : Nat := 3

/-- How the join attempt ended: connected, or the connection_error signal was
emitted (the ConnectFailed surface of the spec).  none means the loop ran
zero iterations. -/
inductive JoinOutcome where
  | connected
  | connectFailed
deriving DecidableEq

/-- The retry loop of join_meeting (src/video_conference.py lines 789-797):
for attempt in range(retry_count): try to connect and break; on failure, if
this was the last attempt emit connection_error and return, else sleep one
second.  att i tells whether attempt i succeeds.  Returns the number of
connection attempts performed, the list of sleep durations in seconds, and
the outcome. -/
def joinAux (att : Nat → Bool) (rc i : Nat) (sleeps : List Nat) :
    Nat × List Nat × Option JoinOutcome :=
  if i < rc then
    if att i then (i + 1, sleeps, some .connected)
    else if i = rc - 1 then (i + 1, sleeps, some .connectFailed)
    else joinAux att rc (i + 1) (sleeps ++ [1])
  else (i, sleeps, none)
termination_by rc - i

/-- join_meeting (src/video_conference.py lines 783-799) when not yet
connected: run the retry loop with the configured retry_count. -/
def join_meeting (att : Nat → Bool) : Nat × List Nat × Option JoinOutcome :=
  joinAux att retry_count 0 []

/-! ### File transfer engine -/

/-- self.chunk_size, set in _init_attributes (src/video_conference.py
line 44). -/
def chunk_size : Nat := 8192

/-- Observable actions of the file-transfer code: framed sends (with the
chunk length for file_data) and signal emissions to the GUI layer. -/
inductive FtEvent where
  | sendInfo (tid : Nat) (name : List Nat) (size : Nat) (md5 : Nat)
  | sendData (tid : Nat) (chunkLen : Nat)
  | sendEnd (tid : Nat) (md5 : Nat)
  | progress (name : List Nat) (pct : Nat)
  | saved (name path : List Nat)
deriving DecidableEq

/-- A sender-side entry of self.pending_files, as created by send_file
(src/video_conference.py lines 985-990): the path and file content are
abstracted to the size recorded in the info dict; name and md5 come from
_prepare_file_info. -/
structure SendEntry where
  name : List Nat
  size : Nat
  md5 : Nat
deriving DecidableEq

/-- self.pending_files in the sender role, a dict keyed by transfer id. -/
abbrev SendPending := Nat → Option SendEntry

/-- The chunk loop of _file_transfer_task (src/video_conference.py lines
1048-1062): while sent_size < file_size, read up to chunk_size bytes (a read
on a file with file_size - sent_size bytes left returns
min chunk_size (file_size - sent_size) bytes), break on an empty read, send
the chunk and emit progress int(sent_size * 100 / file_size). -/
def sendChunks (tid : Nat) (name : List Nat) (S sent : Nat) : List FtEvent :=
  if _h : sent < S then
    if _hc : min chunk_size (S - sent) = 0 then []
    else
      FtEvent.sendData tid (min chunk_size (S - sent)) ::
      FtEvent.progress name ((sent + min chunk_size (S - sent)) * 100 / S) ::
      sendChunks tid name S (sent + min chunk_size (S - sent))
  else []
termination_by S - sent
decreasing_by
  simp only [chunk_size] at _hc ⊢
  omega

/-- _file_transfer_task (src/video_conference.py lines 1033-1078): look up
the pending entry (inserted by send_file before the thread was spawned),
send file_info, stream the chunks, send file_end with the md5 from the info
dict, and in the finally block delete the pending entry. -/
def _file_transfer_task (pending : SendPending) (tid : Nat) :
    List FtEvent × SendPending :=
  match pending tid with
  | none => ([], pending)
  | some e =>
    (FtEvent.sendInfo tid e.name e.size e.md5 ::
       (sendChunks tid e.name e.size 0 ++ [FtEvent.sendEnd tid e.md5]),
     fun k => if k = tid then none else pending k)

/-- A receiver-side entry of self.pending_files, with the fields read by
_handle_file_data and _complete_file_transfer: the accumulation buffer, the
expected size, and the name and md5 of the info dict. -/
structure TransferEntry where
  buffer : List Nat
  size : Nat
  name : List Nat
  md5 : Nat
deriving DecidableEq

/-- self.pending_files in the receiver role, a dict keyed by transfer id. -/
abbrev RecvPending := Nat → Option TransferEntry

/-- data.get of the transfer_id key: present only on the three file message
kinds. -/
def tidOf : Message → Option Nat
  | .file_info tid _ _ _ => some tid
  | .file_data tid _ => some tid
  | .file_end tid _ => some tid
  | _ => none

/-- _complete_file_transfer (src/video_conference.py lines 1103-1124):
recompute the md5 of the accumulated buffer; on mismatch raise (the Bool
component records that an exception was raised) — note the raise happens
before the del statement, so the pending entry survives; on match, open the
save dialog (saveChoice, none when cancelled), write the file and emit 100%
progress only when a path was chosen, then delete the pending entry.
md5fn is the hashlib.md5 hexdigest model. -/
def _complete_file_transfer (md5fn : List Nat → Nat)
    (saveChoice : Option (List Nat)) (pending : RecvPending) (tid : Nat) :
    Bool × RecvPending × List FtEvent :=
  match pending tid with
  | none => (true, pending, [])
  | some e =>
    if md5fn e.buffer ≠ e.md5 then (true, pending, [])
    else
      match saveChoice with
      | some path =>
        (false, fun k => if k = tid then none else pending k,
         [FtEvent.saved e.name path, FtEvent.progress e.name 100])
      | none =>
        (false, fun k => if k = tid then none else pending k, [])

/-- _handle_file_data (src/video_conference.py lines 1080-1101): look up the
transfer id (a missing or unknown id returns with no action); on file_data
extend the buffer and emit progress int(len(buffer) * 100 / size) (a zero
recorded size raises ZeroDivisionError after the buffer was already
extended, caught and logged by the except block — the Bool records a caught
exception); on file_end run _complete_file_transfer, whose raise is caught
and logged here; any other type with a known id falls through. -/
def _handle_file_data (md5fn : List Nat → Nat)
    (saveChoice : Option (List Nat)) (pending : RecvPending)
    (data : Message) : Bool × RecvPending × List FtEvent :=
  match tidOf data with
  | none => (false, pending, [])
  | some tid =>
    match pending tid with
    | none => (false, pending, [])
    | some e =>
      match data with
      | .file_data _ chunk =>
        let e2 : TransferEntry := { e with buffer := e.buffer ++ chunk }
        let pending2 : RecvPending :=
          fun k => if k = tid then some e2 else pending k
        if e.size = 0 then (true, pending2, [])
        else
          (false, pending2,
           [FtEvent.progress e.name (e2.buffer.length * 100 / e.size)])
      | .file_end _ _ => _complete_file_transfer md5fn saveChoice pending tid
      | _ => (false, pending, [])

/-- The chunk lengths of the file_data events in an event list. -/
def dataLens : List FtEvent → List Nat
  | [] => []
  | .sendData _ n :: rest => n :: dataLens rest
  | _ :: rest => dataLens rest

/-- The percentages of the progress events in an event list. -/
def progs : List FtEvent → List Nat
  | [] => []
  | .progress _ p :: rest => p :: progs rest
  | _ :: rest => progs rest

/-- C1 core: sending then receiving is the identity, and the prefix encodes
the exact payload length. -/
theorem send_receive_roundtrip (m : Message)
    (h : (serializeMsg m).length < 2 ^ 32) :
    ∃ pre : List Nat,
      pack32 (serializeMsg m).length = some pre ∧
      send_to_client m = some (pre ++ serializeMsg m) ∧
      pre.length = 4 ∧
      unpack32 pre = (serializeMsg m).length ∧
      receive_from_client (pre ++ serializeMsg m) = .ok m := by
  obtain ⟨hpack, hunpack⟩ := unpack_pack (serializeMsg m).length h
  refine ⟨_, hpack, ?_, ?_, hunpack, ?_⟩
  · simp [send_to_client, hpack]
  · rfl
  · set L := (serializeMsg m).length with hL
    set pre : List Nat :=
      [L / 2 ^ 24 % 256, L / 2 ^ 16 % 256, L / 2 ^ 8 % 256, L % 256] with hpre
    have hpl : pre.length = 4 := rfl
    have hsz : (pre ++ serializeMsg m).take 4 = pre := by
      have := take_app pre (serializeMsg m)
      rwa [hpl] at this
    have hdr : (pre ++ serializeMsg m).drop 4 = serializeMsg m := by
      have := drop_app pre (serializeMsg m)
      rwa [hpl] at this
    rw [receive_from_client]
    simp only [hsz, hdr]
    have hpre_ne : pre ≠ [] := by simp [hpre]
    rw [if_neg hpre_ne]
    rw [if_neg (by rw [hpl]; simp)]
    rw [hunpack]
    have hacc := recvAccum_le (serializeMsg m).length (serializeMsg m) [] L
      (le_refl _) (by simp [hL])
    rw [hacc]
    simp only [List.nil_append]
    rw [if_neg (by simp [hL])]
    rw [deserialize_serialize]

/-- C1: for every valid message M whose serialization fits the 4-byte
prefix, send_to_client writes a 4-byte big-endian prefix holding exactly the
serialized payload length followed by the payload, and receive_from_client
on that wire content returns M field-for-field. -/
theorem c1_framer_roundtrip (m : Message)
    (h : (serializeMsg m).length < 2 ^ 32) :
    ∃ pre : List Nat,
      pack32 (serializeMsg m).length = some pre ∧
      send_to_client m = some (pre ++ serializeMsg m) ∧
      pre.length = 4 ∧
      unpack32 pre = (serializeMsg m).length ∧
      receive_from_client (pre ++ serializeMsg m) = .ok m :=
  send_receive_roundtrip m h

/-- Witness for C1 at a concrete chat message. -/
theorem c1_framer_roundtrip_witness :
    ∃ pre : List Nat,
      pack32 (serializeMsg (Message.chat [104, 105] [49] [99])).length = some pre ∧
      send_to_client (Message.chat [104, 105] [49] [99]) =
        some (pre ++ serializeMsg (Message.chat [104, 105] [49] [99])) ∧
      pre.length = 4 ∧
      unpack32 pre = (serializeMsg (Message.chat [104, 105] [49] [99])).length ∧
      receive_from_client (pre ++ serializeMsg (Message.chat [104, 105] [49] [99])) =
        .ok (Message.chat [104, 105] [49] [99]) :=
  c1_framer_roundtrip (Message.chat [104, 105] [49] [99]) (by decide)

/-- C2 counterexample: with two registered connections and a chat message
decoded from client 0, the host handler performs no wire send at all, so
connection 1 — another registered connection — receives nothing, refuting
the claimed broadcast to every other connection. -/
theorem c2_counterexample :
    (handle_client_dispatch [0, 1] (Message.chat [104, 105] [] clientStr)).2.1 = [] ∧
    (1 : Nat) ∈ [0, 1] ∧
    ¬ ∃ p ∈ (handle_client_dispatch [0, 1]
        (Message.chat [104, 105] [] clientStr)).2.1, p.1 = 1 := by
  decide

/-- C2 amended: when the host handler receives a chat message it only shows
it once on the host UI (labelled 对方 for sender "client") and performs no
wire send whatsoever — the message is not broadcast to any other connection
and no echo is sent back to the sender (and for every message kind the
handler sends nothing). -/
theorem c2_chat_displayed_not_broadcast (clients : List Nat)
    (c t s : List Nat) :
    handle_client_dispatch clients (.chat c t s) =
      (clients, [],
        [.addChat (if s = clientStr then .duifang else .zhuchiren) c]) ∧
    ∀ data : Message, (handle_client_dispatch clients data).2.1 = [] := by
  constructor
  · rfl
  · intro data
    cases data <;> rfl

/-! ### Broadcast lemmas -/

theorem broadcastGo_ok (fails : Nat → Bool) (payload : List Nat) :
    ∀ (l cur : List Nat), (∀ c ∈ l, fails c = false) →
      broadcastGo fails none payload l cur =
        ⟨cur, l.map (fun c => (c, payload)), []⟩ := by
  intro l
  induction l with
  | nil => intro cur _; rfl
  | cons c rest ih =>
    intro cur h
    have hc : fails c = false := h c (List.mem_cons_self c rest)
    have hrest : ∀ x ∈ rest, fails x = false :=
      fun x hx => h x (List.mem_cons_of_mem _ hx)
    simp only [broadcastGo, hc]
    rw [if_neg (by simp)]
    simp only [Bool.false_eq_true, if_false]
    rw [ih cur hrest]
    simp

theorem broadcastGo_one (fails : Nat → Bool) (payload : List Nat) (k : Nat)
    (hfk : fails k = true) :
    ∀ (l cur : List Nat), l.Nodup →
      (∀ c ∈ l, fails c = true → c = k) → k ∈ l → k ∈ cur →
      broadcastGo fails none payload l cur =
        ⟨cur.erase k, (l.erase k).map (fun c => (c, payload)), [k]⟩ := by
  intro l
  induction l with
  | nil => intro cur _ _ hk; exact absurd hk (List.not_mem_nil k)
  | cons c rest ih =>
    intro cur hnd himp hkl hkc
    by_cases hck : c = k
    · subst hck
      have hnotin : c ∉ rest := (List.nodup_cons.mp hnd).1
      simp only [broadcastGo, hfk]
      rw [if_neg (by simp)]
      simp only [if_true]
      rw [if_pos hkc]
      have hrest : ∀ x ∈ rest, fails x = false := by
        intro x hx
        cases hfx : fails x with
        | false => rfl
        | true =>
          have hxk : x = c := himp x (List.mem_cons_of_mem _ hx) hfx
          exact absurd (hxk ▸ hx) hnotin
      rw [broadcastGo_ok fails payload rest (cur.erase c) hrest]
      simp [List.erase_cons_head]
    · have hfc : fails c = false := by
        cases hfx : fails c with
        | false => rfl
        | true => exact absurd (himp c (List.mem_cons_self c rest) hfx) hck
      simp only [broadcastGo, hfc]
      rw [if_neg (by simp)]
      simp only [Bool.false_eq_true, if_false]
      have hkrest : k ∈ rest := by
        rcases List.mem_cons.mp hkl with h | h
        · exact absurd h.symm hck
        · exact h
      rw [ih cur (List.nodup_cons.mp hnd).2
        (fun x hx hfx => himp x (List.mem_cons_of_mem _ hx) hfx) hkrest hkc]
      have : (c :: rest).erase k = c :: rest.erase k := by
        simp [List.erase_cons, hck]
      rw [this]
      rfl

/-- C3: when exactly one registered connection k fails on send, broadcast
serializes the message once (every delivery carries the same serialized
payload), iterates the snapshot delivering to exactly the other N-1
connections in order, removes and closes exactly k, and returns normally,
with the chat UI call still made afterwards. -/
theorem c3_broadcast_isolates_failure (fails : Nat → Bool)
    (clients : List Nat) (k : Nat) (data : Message)
    (hnd : clients.Nodup) (hk : k ∈ clients)
    (hiff : ∀ c ∈ clients, fails c = true ↔ c = k)
    (hlen : (serializeMsg data).length < 2 ^ 32) :
    broadcast_data fails clients data none =
      (⟨clients.erase k,
        (clients.erase k).map (fun c => (c, serializeMsg data)), [k]⟩,
       broadcastUi data) := by
  have hfk : fails k = true := (hiff k hk).mpr rfl
  have himp : ∀ c ∈ clients, fails c = true → c = k :=
    fun c hc hf => (hiff c hc).mp hf
  obtain ⟨hpack, _⟩ := unpack_pack (serializeMsg data).length hlen
  simp only [broadcast_data, hpack]
  rw [broadcastGo_one fails (serializeMsg data) k hfk clients clients hnd
    himp hk hk]

/-- Witness for C3: three registered connections where connection 1 is the
failing one. -/
theorem c3_broadcast_isolates_failure_witness :
    broadcast_data (fun c => c == 1) [0, 1, 2]
        (Message.chat [104] [] clientStr) none =
      (⟨[0, 2],
        [(0, serializeMsg (Message.chat [104] [] clientStr)),
         (2, serializeMsg (Message.chat [104] [] clientStr))], [1]⟩,
       [UiEvent.addChat ChatLabel.duifang [104]]) := by
  have h := c3_broadcast_isolates_failure (fun c => c == 1) [0, 1, 2] 1
    (Message.chat [104] [] clientStr) (by decide) (by decide) (by decide)
    (by decide)
  exact h.trans (by decide)

/-- C4 counterexample: a stream advertising a 10-byte payload but holding
only 3 payload bytes before the peer closes.  The zero-byte read happens
after 3 bytes were accumulated, so the truncated 3-byte payload is handed to
the decoder, refuting the claim that a truncated payload is never passed to
the decoder. -/
theorem c4_counterexample :
    receive_data_step [0, 0, 0, 10, 7, 7, 7] = .decode [7, 7, 7] [] ∧
    unpack32 [0, 0, 0, 10] = 10 ∧ ([7, 7, 7] : List Nat).length < 10 := by
  refine ⟨?_, by decide, by decide⟩
  have hacc := recvAccum_le 3 [7, 7, 7] [] 10 (by decide) (by decide)
  simp only [List.nil_append] at hacc
  simp [receive_data_step, unpack32, hacc]

/-- C4 amended: a zero-byte read of the length prefix is treated as the peer
closing (break); a zero-byte read before any payload byte arrived is also
treated as closed; but when some payload bytes have been accumulated, the
loop breaks and the accumulated — possibly truncated — payload is passed to
the decoder. -/
theorem c4_zero_read_paths (pre : List Nat) (target : Nat)
    (hpack : pack32 target = some pre) (payload : List Nat)
    (hle : payload.length ≤ target) :
    receive_data_step [] = .closed ∧
    receive_data_step (pre ++ payload) =
      (if payload = [] then .closed else .decode payload []) := by
  constructor
  · rfl
  · have hlt : target < 2 ^ 32 := by
      by_contra hge
      unfold pack32 at hpack
      rw [if_neg hge] at hpack
      cases hpack
    have hpre : pre = [target / 2 ^ 24 % 256, target / 2 ^ 16 % 256,
        target / 2 ^ 8 % 256, target % 256] := by
      unfold pack32 at hpack
      rw [if_pos hlt] at hpack
      exact (Option.some.inj hpack).symm
    obtain ⟨_, hup⟩ := unpack_pack target hlt
    have hplen : pre.length = 4 := by rw [hpre]; rfl
    have htk : (pre ++ payload).take 4 = pre := by
      have := take_app pre payload
      rwa [hplen] at this
    have hdr : (pre ++ payload).drop 4 = payload := by
      have := drop_app pre payload
      rwa [hplen] at this
    have hacc := recvAccum_le payload.length payload [] target (le_refl _)
      (by simpa using hle)
    simp only [List.nil_append] at hacc
    rw [receive_data_step]
    simp only [htk, hdr]
    rw [if_neg (by rw [hpre]; simp), if_neg (by rw [hplen]; simp)]
    have hup2 : unpack32 pre = target := by rw [hpre]; exact hup
    rw [hup2, hacc]

/-- Witness for C4. -/
theorem c4_zero_read_paths_witness :
    receive_data_step [] = .closed ∧
    receive_data_step ([0, 0, 0, 10] ++ [7, 7, 7]) = .decode [7, 7, 7] [] := by
  have h := c4_zero_read_paths [0, 0, 0, 10] 10 (by decide) [7, 7, 7]
    (by decide)
  refine ⟨h.1, ?_⟩
  have h2 := h.2
  simpa using h2

/-- C5 counterexample: a known transfer whose recomputed digest (0 under the
chosen digest function) differs from the advertised digest 99.  The handler
records a raised-and-caught exception, but the pending entry and its
accumulated buffer still exist afterwards, refuting the claim that the
buffered state no longer exists. -/
theorem c5_counterexample :
    (_handle_file_data (fun _ => 0) none
        (fun k => if k = 0 then some ⟨[1, 2, 3], 3, [110], 99⟩ else none)
        (Message.file_end 0 99)).2.1 0 =
      some ⟨[1, 2, 3], 3, [110], 99⟩ ∧
    (_handle_file_data (fun _ => 0) none
        (fun k => if k = 0 then some ⟨[1, 2, 3], 3, [110], 99⟩ else none)
        (Message.file_end 0 99)).1 = true := by
  constructor <;> rfl

/-- C5 amended: on file_end for a known transfer whose recomputed digest
differs from the advertised one, the receiver raises (the exception is
caught and logged by the caller), offers no save, emits no progress event
(in particular never 100%), but does NOT discard the accumulated data: the
raise happens before the delete statement, so the pending entry with its
buffer survives unchanged. -/
theorem c5_integrity_mismatch_keeps_entry (md5fn : List Nat → Nat)
    (saveChoice : Option (List Nat)) (pending : RecvPending) (tid : Nat)
    (e : TransferEntry) (d : Nat) (hp : pending tid = some e)
    (hm : md5fn e.buffer ≠ e.md5) :
    _handle_file_data md5fn saveChoice pending (.file_end tid d) =
      (true, pending, []) ∧
    (_handle_file_data md5fn saveChoice pending (.file_end tid d)).2.1 tid =
      some e := by
  have hmain :
      _handle_file_data md5fn saveChoice pending (.file_end tid d) =
        (true, pending, []) := by
    simp only [_handle_file_data, tidOf, hp, _complete_file_transfer]
    rw [if_pos hm]
  exact ⟨hmain, by rw [hmain]; exact hp⟩

/-- Witness for C5 amended. -/
theorem c5_integrity_mismatch_keeps_entry_witness :
    _handle_file_data (fun _ => 1) none
        (fun k => if k = 4 then some ⟨[9], 1, [110], 7⟩ else none)
        (Message.file_end 4 7) =
      (true, fun k => if k = 4 then some ⟨[9], 1, [110], 7⟩ else none, []) :=
  (c5_integrity_mismatch_keeps_entry (fun _ => 1) none
    (fun k => if k = 4 then some ⟨[9], 1, [110], 7⟩ else none) 4
    ⟨[9], 1, [110], 7⟩ 7 rfl (by decide)).1

/-- C6: for each accepted connection the only traffic sent by the accept
loop is the length prefix and the system/connection_confirmed payload, which
the peer decodes as the handshake; the connection is registered and a
handler thread spawned exactly when both sends succeed, and on any send
failure the socket is closed and never registered, leaving the registry
unchanged. -/
theorem c6_handshake_before_register (reg : List Nat) (sock : Nat)
    (sendOk : Nat → Bool) (ts : List Nat)
    (hlen : (serializeMsg (welcome ts)).length < 2 ^ 32) :
    ∃ pre : List Nat,
      pack32 (serializeMsg (welcome ts)).length = some pre ∧
      (sendOk 0 = true → sendOk 1 = true →
        accept_one reg sock sendOk ts =
          ⟨reg ++ [sock], [pre, serializeMsg (welcome ts)], true, true,
            false⟩ ∧
        receive_from_client (pre ++ serializeMsg (welcome ts)) =
          .ok (welcome ts)) ∧
      (sendOk 0 = false ∨ sendOk 1 = false →
        accept_one reg sock sendOk ts =
          ⟨reg, if sendOk 0 then [pre] else [], false, false, true⟩) := by
  obtain ⟨pre, hpack, hsend, hplen, hup, hrecv⟩ :=
    send_receive_roundtrip (welcome ts) hlen
  refine ⟨pre, hpack, ?_, ?_⟩
  · intro h0 h1
    constructor
    · simp only [accept_one, hpack, h0, h1, if_true]
    · exact hrecv
  · intro h01
    simp only [accept_one, hpack]
    rcases h01 with h0 | h1
    · rw [h0]
      simp
    · cases h0 : sendOk 0 with
      | false => simp
      | true => simp [h1]

/-- Witness for C6: a socket whose sends succeed gets registered with the
handshake as the only traffic; a socket whose first send fails is closed and
not registered. -/
theorem c6_handshake_before_register_witness :
    (accept_one [] 7 (fun _ => true) [49]).registered = true ∧
    (accept_one [] 7 (fun _ => true) [49]).spawned = true ∧
    (accept_one [] 7 (fun _ => true) [49]).registry = [7] ∧
    (accept_one [] 7 (fun _ => false) [49]).registered = false ∧
    (accept_one [] 7 (fun _ => false) [49]).spawned = false ∧
    (accept_one [] 7 (fun _ => false) [49]).closedSock = true ∧
    (accept_one [] 7 (fun _ => false) [49]).registry = [] := by
  obtain ⟨pre1, _, hs1, _⟩ :=
    c6_handshake_before_register [] 7 (fun _ => true) [49] (by decide)
  obtain ⟨pre2, _, _, hf2⟩ :=
    c6_handshake_before_register [] 7 (fun _ => false) [49] (by decide)
  have h1 := (hs1 rfl rfl).1
  have h2 := hf2 (Or.inl rfl)
  rw [h1, h2]
  simp

/-! ### Join retry lemmas -/

theorem joinAux_all_fail (att : Nat → Bool) (rc : Nat)
    (hfail : ∀ j, j < rc → att j = false) :
    ∀ (n i : Nat) (sleeps : List Nat), rc - i ≤ n → i < rc →
      joinAux att rc i sleeps =
        (rc, sleeps ++ List.replicate (rc - 1 - i) 1, some .connectFailed) := by
  intro n
  induction n with
  | zero => intro i sleeps hn hi; omega
  | succ n ih =>
    intro i sleeps hn hi
    rw [joinAux]
    rw [if_pos hi, hfail i hi]
    simp only [Bool.false_eq_true, if_false]
    by_cases hlast : i = rc - 1
    · rw [if_pos hlast]
      have h1 : i + 1 = rc := by omega
      have h2 : rc - 1 - i = 0 := by omega
      rw [h1, h2]
      simp
    · rw [if_neg hlast]
      have hi2 : i + 1 < rc := by omega
      rw [ih (i + 1) (sleeps ++ [1]) (by omega) hi2]
      have h3 : rc - 1 - i = (rc - 1 - (i + 1)) + 1 := by omega
      rw [h3, List.replicate_succ, List.append_assoc]
      rfl

/-- C7: when every connection attempt fails, join_meeting performs exactly
retry_count connection attempts (retry_count is 3 in the source), sleeps one
second between consecutive attempts (retry_count - 1 sleeps of 1 second),
and ends by emitting the connection-failed error instead of retrying
further. -/
theorem c7_retry_exhaustion (att : Nat → Bool)
    (hfail : ∀ j, j < retry_count → att j = false) :
    join_meeting att =
      (retry_count, List.replicate (retry_count - 1) 1,
        some .connectFailed) ∧
    retry_count = 3 := by
  constructor
  · have h := joinAux_all_fail att retry_count hfail retry_count 0 []
      (by omega) (by decide)
    simpa [join_meeting] using h
  · rfl

/-- Witness for C7: all attempts fail, giving 3 attempts and two 1-second
sleeps. -/
theorem c7_retry_exhaustion_witness :
    join_meeting (fun _ => false) = (3, [1, 1], some .connectFailed) := by
  have h := (c7_retry_exhaustion (fun _ => false) (fun _ _ => rfl)).1
  exact h.trans (by decide)

/-- C9: a file_data or file_end message whose transfer id is missing or not
a currently pending transfer is ignored: the handler returns with no caught
exception, no emitted event (in particular no progress), and the very same
pending map. -/
theorem c9_unknown_transfer_ignored (md5fn : List Nat → Nat)
    (saveChoice : Option (List Nat)) (pending : RecvPending) (data : Message)
    (h : ∀ t, tidOf data = some t → pending t = none) :
    _handle_file_data md5fn saveChoice pending data = (false, pending, []) := by
  cases htid : tidOf data with
  | none => simp only [_handle_file_data, htid]
  | some t =>
    have hp := h t htid
    simp only [_handle_file_data, htid, hp]

/-- Witness for C9: a file_data message for unknown transfer id 7 while only
transfer 5 is pending. -/
theorem c9_unknown_transfer_ignored_witness :
    _handle_file_data (fun _ => 0) none
        (fun k => if k = 5 then some ⟨[], 3, [], 0⟩ else none)
        (Message.file_data 7 [1, 2]) =
      (false, fun k => if k = 5 then some ⟨[], 3, [], 0⟩ else none, []) :=
  c9_unknown_transfer_ignored (fun _ => 0) none
    (fun k => if k = 5 then some ⟨[], 3, [], 0⟩ else none)
    (Message.file_data 7 [1, 2])
    (fun t ht => by
      have h7 : t = 7 := (Option.some.inj ht).symm
      rw [h7]
      rfl)

/-! ### Chunk-loop lemmas for the sender task -/

theorem sc_nil (tid : Nat) (name : List Nat) (S sent : Nat)
    (h : ¬ sent < S) : sendChunks tid name S sent = [] := by
  rw [sendChunks, dif_neg h]

theorem sc_cons (tid : Nat) (name : List Nat) (S sent : Nat)
    (h : sent < S) :
    sendChunks tid name S sent =
      FtEvent.sendData tid (min chunk_size (S - sent)) ::
      FtEvent.progress name ((sent + min chunk_size (S - sent)) * 100 / S) ::
      sendChunks tid name S (sent + min chunk_size (S - sent)) := by
  rw [sendChunks, dif_pos h,
    dif_neg (by simp only [chunk_size]; omega : ¬ min chunk_size (S - sent) = 0)]

theorem dataLens_data (tid n : Nat) (rest : List FtEvent) :
    dataLens (.sendData tid n :: rest) = n :: dataLens rest := rfl

theorem dataLens_prog (name : List Nat) (p : Nat) (rest : List FtEvent) :
    dataLens (.progress name p :: rest) = dataLens rest := rfl

theorem progs_data (tid n : Nat) (rest : List FtEvent) :
    progs (.sendData tid n :: rest) = progs rest := rfl

theorem progs_prog (name : List Nat) (p : Nat) (rest : List FtEvent) :
    progs (.progress name p :: rest) = p :: progs rest := rfl

theorem sc_sum (n : Nat) :
    ∀ (tid : Nat) (name : List Nat) (S sent : Nat), S - sent ≤ n →
      (dataLens (sendChunks tid name S sent)).sum = S - sent := by
  induction n with
  | zero =>
    intro tid name S sent hn
    rw [sc_nil tid name S sent (by omega)]
    show (0 : Nat) = S - sent
    omega
  | succ n ih =>
    intro tid name S sent hn
    by_cases h : sent < S
    · rw [sc_cons tid name S sent h, dataLens_data, dataLens_prog,
        List.sum_cons,
        ih tid name S (sent + min chunk_size (S - sent))
          (by simp only [chunk_size]; omega)]
      simp only [chunk_size]
      omega
    · rw [sc_nil tid name S sent h]
      show (0 : Nat) = S - sent
      omega

theorem sc_len_eq (n : Nat) :
    ∀ (tid : Nat) (name : List Nat) (S sent : Nat), S - sent ≤ n →
      (progs (sendChunks tid name S sent)).length =
        (dataLens (sendChunks tid name S sent)).length := by
  induction n with
  | zero =>
    intro tid name S sent hn
    rw [sc_nil tid name S sent (by omega)]
    rfl
  | succ n ih =>
    intro tid name S sent hn
    by_cases h : sent < S
    · rw [sc_cons tid name S sent h, dataLens_data, dataLens_prog,
        progs_data, progs_prog, List.length_cons, List.length_cons,
        ih tid name S (sent + min chunk_size (S - sent))
          (by simp only [chunk_size]; omega)]
    · rw [sc_nil tid name S sent h]
      rfl

theorem sc_dataLens_ne (tid : Nat) (name : List Nat) (S sent : Nat)
    (h : sent < S) : dataLens (sendChunks tid name S sent) ≠ [] := by
  rw [sc_cons tid name S sent h, dataLens_data]
  simp

theorem sc_progs_ne (tid : Nat) (name : List Nat) (S sent : Nat)
    (h : sent < S) : progs (sendChunks tid name S sent) ≠ [] := by
  rw [sc_cons tid name S sent h, progs_data, progs_prog]
  simp

theorem sc_dropLast (n : Nat) :
    ∀ (tid : Nat) (name : List Nat) (S sent : Nat), S - sent ≤ n →
      ∀ x ∈ (dataLens (sendChunks tid name S sent)).dropLast, x = 8192 := by
  induction n with
  | zero =>
    intro tid name S sent hn x hx
    rw [sc_nil tid name S sent (by omega)] at hx
    simp [dataLens] at hx
  | succ n ih =>
    intro tid name S sent hn x hx
    by_cases h : sent < S
    · rw [sc_cons tid name S sent h, dataLens_data, dataLens_prog] at hx
      by_cases hend : sent + min chunk_size (S - sent) < S
      · have hne := sc_dataLens_ne tid name S
          (sent + min chunk_size (S - sent)) hend
        obtain ⟨y, ys, hys⟩ := List.exists_cons_of_ne_nil hne
        rw [hys, List.dropLast_cons₂] at hx
        rcases List.mem_cons.mp hx with h1 | h2
        · rw [h1]
          simp only [chunk_size] at hend ⊢
          omega
        · exact ih tid name S (sent + min chunk_size (S - sent))
            (by simp only [chunk_size]; omega) x (by rw [hys]; exact h2)
      · rw [sc_nil tid name S (sent + min chunk_size (S - sent)) hend] at hx
        simp [dataLens] at hx
    · rw [sc_nil tid name S sent h] at hx
      simp [dataLens] at hx

theorem sc_chain (n : Nat) :
    ∀ (tid : Nat) (name : List Nat) (S sent : Nat), S - sent ≤ n →
      List.Chain' (· ≤ ·) (progs (sendChunks tid name S sent)) := by
  induction n with
  | zero =>
    intro tid name S sent hn
    rw [sc_nil tid name S sent (by omega)]
    exact List.chain'_nil
  | succ n ih =>
    intro tid name S sent hn
    by_cases h : sent < S
    · rw [sc_cons tid name S sent h, progs_data, progs_prog]
      rw [List.chain'_cons']
      constructor
      · intro y hy
        by_cases hend : sent + min chunk_size (S - sent) < S
        · rw [sc_cons tid name S (sent + min chunk_size (S - sent)) hend,
            progs_data, progs_prog] at hy
          simp only [List.head?_cons, Option.mem_def, Option.some.injEq] at hy
          rw [← hy]
          apply Nat.div_le_div_right
          omega
        · rw [sc_nil tid name S (sent + min chunk_size (S - sent)) hend] at hy
          simp [progs] at hy
      · exact ih tid name S (sent + min chunk_size (S - sent))
          (by simp only [chunk_size]; omega)
    · rw [sc_nil tid name S sent h]
      exact List.chain'_nil

theorem sc_count_last (n : Nat) :
    ∀ (tid : Nat) (name : List Nat) (S sent : Nat), S - sent ≤ n → sent < S →
      (progs (sendChunks tid name S sent)).count 100 = 1 ∧
      (progs (sendChunks tid name S sent)).getLast? = some 100 := by
  induction n with
  | zero => intro tid name S sent hn h; omega
  | succ n ih =>
    intro tid name S sent hn h
    rw [sc_cons tid name S sent h, progs_data, progs_prog]
    by_cases hend : sent + min chunk_size (S - sent) < S
    · have hp : (sent + min chunk_size (S - sent)) * 100 / S < 100 := by
        rw [Nat.div_lt_iff_lt_mul (by omega : 0 < S)]
        omega
      obtain ⟨hcount, hlast⟩ := ih tid name S
        (sent + min chunk_size (S - sent))
        (by simp only [chunk_size]; omega) hend
      have hne := sc_progs_ne tid name S
        (sent + min chunk_size (S - sent)) hend
      obtain ⟨y, ys, hys⟩ := List.exists_cons_of_ne_nil hne
      constructor
      · rw [List.count_cons, hcount]
        have hne100 : ¬ ((sent + min chunk_size (S - sent)) * 100 / S = 100) :=
          by omega
        simp [hne100]
      · rw [hys, List.getLast?_cons_cons, ← hys]
        exact hlast
    · have heq : sent + min chunk_size (S - sent) = S := by
        simp only [chunk_size] at hend ⊢
        omega
      rw [heq, sc_nil tid name S S (by omega)]
      have h100 : S * 100 / S = 100 := Nat.mul_div_cancel_left 100 (by omega)
      rw [h100, show progs ([] : List FtEvent) = [] from rfl]
      exact ⟨by simp, rfl⟩

/-- C8: for a pending send of positive size, the task sends file_info, then
the chunk stream, then file_end carrying the digest from the info dict, and
deletes the pending entry; the chunk lengths sum to exactly the file size
with every chunk before the last being exactly 8192 bytes; a progress value
is emitted after every chunk (the progress and chunk lists have equal
length), the progress sequence is non-decreasing, and it equals 100 exactly
once — as its final value. -/
theorem c8_chunked_send_progress (pending : SendPending) (tid : Nat)
    (e : SendEntry) (hp : pending tid = some e) (hS : 0 < e.size) :
    _file_transfer_task pending tid =
      (FtEvent.sendInfo tid e.name e.size e.md5 ::
        (sendChunks tid e.name e.size 0 ++ [FtEvent.sendEnd tid e.md5]),
       fun k => if k = tid then none else pending k) ∧
    (dataLens (sendChunks tid e.name e.size 0)).sum = e.size ∧
    (∀ x ∈ (dataLens (sendChunks tid e.name e.size 0)).dropLast, x = 8192) ∧
    (progs (sendChunks tid e.name e.size 0)).length =
      (dataLens (sendChunks tid e.name e.size 0)).length ∧
    List.Chain' (· ≤ ·) (progs (sendChunks tid e.name e.size 0)) ∧
    (progs (sendChunks tid e.name e.size 0)).count 100 = 1 ∧
    (progs (sendChunks tid e.name e.size 0)).getLast? = some 100 ∧
    (_file_transfer_task pending tid).2 tid = none := by
  have htask : _file_transfer_task pending tid =
      (FtEvent.sendInfo tid e.name e.size e.md5 ::
        (sendChunks tid e.name e.size 0 ++ [FtEvent.sendEnd tid e.md5]),
       fun k => if k = tid then none else pending k) := by
    simp only [_file_transfer_task, hp]
  refine ⟨htask, ?_, ?_, ?_, ?_, ?_, ?_, ?_⟩
  · have hsum := sc_sum e.size tid e.name e.size 0 (by omega)
    simpa using hsum
  · exact sc_dropLast e.size tid e.name e.size 0 (by omega)
  · exact sc_len_eq e.size tid e.name e.size 0 (by omega)
  · exact sc_chain e.size tid e.name e.size 0 (by omega)
  · exact (sc_count_last e.size tid e.name e.size 0 (by omega) hS).1
  · exact (sc_count_last e.size tid e.name e.size 0 (by omega) hS).2
  · rw [htask]
    simp

/-- Witness for C8 at a 3-byte file (one 3-byte chunk, one progress value
of 100). -/
theorem c8_chunked_send_progress_witness :
    (dataLens (sendChunks 1 [97] 3 0)).sum = 3 ∧
    (progs (sendChunks 1 [97] 3 0)).count 100 = 1 ∧
    (progs (sendChunks 1 [97] 3 0)).getLast? = some 100 ∧
    (_file_transfer_task (fun k => if k = 1 then some ⟨[97], 3, 5⟩ else none)
        1).2 1 = none := by
  have h := c8_chunked_send_progress
    (fun k => if k = 1 then some ⟨[97], 3, 5⟩ else none) 1 ⟨[97], 3, 5⟩ rfl
    (by decide)
  exact ⟨h.2.1, h.2.2.2.2.2.1, h.2.2.2.2.2.2.1, h.2.2.2.2.2.2.2⟩

/-- C10: for a pending send of size exactly 0, the task sends file_info and
then immediately file_end, emits no file_data message and no progress value
at all (in particular never 100), and the finally block still deletes the
pending entry. -/
theorem c10_empty_file_send (pending : SendPending) (tid : Nat)
    (name : List Nat) (md5 : Nat)
    (hp : pending tid = some ⟨name, 0, md5⟩) :
    _file_transfer_task pending tid =
      ([FtEvent.sendInfo tid name 0 md5, FtEvent.sendEnd tid md5],
       fun k => if k = tid then none else pending k) ∧
    progs (_file_transfer_task pending tid).1 = [] ∧
    dataLens (_file_transfer_task pending tid).1 = [] ∧
    (_file_transfer_task pending tid).2 tid = none := by
  have h0 : sendChunks tid name 0 0 = [] := sc_nil tid name 0 0 (by omega)
  have htask : _file_transfer_task pending tid =
      ([FtEvent.sendInfo tid name 0 md5, FtEvent.sendEnd tid md5],
       fun k => if k = tid then none else pending k) := by
    simp only [_file_transfer_task, hp, h0, List.nil_append]
  refine ⟨htask, ?_, ?_, ?_⟩
  · rw [htask]
    rfl
  · rw [htask]
    rfl
  · rw [htask]
    simp

/-- Witness for C10. -/
theorem c10_empty_file_send_witness :
    progs (_file_transfer_task
        (fun k => if k = 2 then some ⟨[98], 0, 9⟩ else none) 2).1 = [] ∧
    dataLens (_file_transfer_task
        (fun k => if k = 2 then some ⟨[98], 0, 9⟩ else none) 2).1 = [] ∧
    (_file_transfer_task
        (fun k => if k = 2 then some ⟨[98], 0, 9⟩ else none) 2).2 2 = none := by
  have h := c10_empty_file_send
    (fun k => if k = 2 then some ⟨[98], 0, 9⟩ else none) 2 [98] 9 rfl
  exact ⟨h.2.1, h.2.2.1, h.2.2.2⟩

end VideoConf
